import Mathlib

/-!
Verification of the core of the Terminal Multi-Agent Orchestrator (TMAO).

This file gives a shallow embedding of the pieces of the system that carry
its invariants, and proves (or refutes) the specification claims about them:

* `src/core/memory.py` — the shared memory store (`MemoryManager.store`,
  `retrieve`, `get`, `cleanup`), including the JSON serialization round-trip
  of structured content;
* `src/agents/coordinator_agent.py` — the retry/backoff wrapper
  (`_execute_with_retry`) and the three-stage `orchestrate` pipeline;
* `src/agents/builder_agent.py` — sequential execution with single-retry
  recovery (`_execute_sequential`) and parallel execution with
  order-restoring collection (`_execute_parallel`);
* `src/agents/reviewer_agent.py` — accuracy / quality / final scoring;
* `src/agents/planner_agent.py` — keyword classification and template-based
  subtask generation.

Modelling conventions: Python machine floats that only ever hold exact
ratios are modelled as `ℚ` or `ℝ`; `datetime` instants are `Int` ticks
(minutes, matching `timedelta(minutes=expires_in)`); `uuid4` is modelled as
a fresh counter (all that the code relies on is uniqueness); the standard
library pair `json.dumps`/`json.loads` is modelled semantically: the stored
serialized text is represented by the Python value it was produced from, and
parsing it back yields the canonical JSON image of that value (string keys,
JSON-representable leaves); `json.loads` applied to arbitrary *plain string*
content is an abstract parameter `loads` of the model.
-/

namespace TMAO

/-! ## String helpers

Python's `str.lower`, `str.upper`, `str.strip`, and the `startswith` /
`endswith` tests, modelled structurally over the character list so that
they compute by kernel reduction. -/

/-- `s.lower()` (ASCII case folding, as used by the keyword tests). -/
def pyLower (s : String) : String :=
  String.mk (s.data.map Char.toLower)

/-- `s.upper()`. -/
def pyUpper (s : String) : String :=
  String.mk (s.data.map Char.toUpper)

/-- `s.strip()`: remove leading and trailing whitespace. -/
def pyStrip (s : String) : String :=
  String.mk (((s.data.dropWhile Char.isWhitespace).reverse.dropWhile Char.isWhitespace).reverse)

/-- `s.startswith(p)`. -/
def pyStartsWith (s p : String) : Bool :=
  p.data.isPrefixOf s.data

/-- `s.endswith(p)`. -/
def pyEndsWith (s p : String) : Bool :=
  p.data.reverse.isPrefixOf s.data.reverse

/-! ## Python values and the JSON round trip (`src/core/memory.py`) -/

/-- A Python dictionary key as accepted by `json.dumps`: strings, ints,
booleans and `None` (other key types raise `TypeError` at serialization
time, which `MemoryManager.store` catches). -/
inductive PyKey where
  | kstr : String → PyKey
  | kint : Int → PyKey
  | kbool : Bool → PyKey
  | knone : PyKey
deriving DecidableEq, Repr

/-- A Python value of the JSON-serializable universe handled by
`MemoryManager.store`: strings, ints, booleans, `None`, lists and dicts.
Dicts are insertion-ordered key/value lists, as in CPython. -/
inductive PyVal where
  | pstr : String → PyVal
  | pint : Int → PyVal
  | pbool : Bool → PyVal
  | pnone : PyVal
  | plist : List PyVal → PyVal
  | pdict : List (PyKey × PyVal) → PyVal

/-- `isinstance(content, (dict, list))`: the structured values, which
`store` serializes. -/
def isStructured : PyVal → Bool
  | .pdict _ => true
  | .plist _ => true
  | _ => false

/-- How `json.dumps` renders a non-string dict key as a JSON object key:
`str(int)` for ints, `true` / `false` for booleans, `null` for `None`. -/
def keyStr : PyKey → String
  | .kstr s => s
  | .kint n => toString n
  | .kbool true => "true"
  | .kbool false => "false"
  | .knone => "null"

/-- Assignment `d[k] = v` on an insertion-ordered association list: updates
the value in place if the key is present, appends otherwise (CPython dict
semantics, also used for `metadata["_content_type"] = ...`). -/
def setKey {α : Type} (l : List (String × α)) (k : String) (v : α) : List (String × α) :=
  if l.any (fun p => p.1 == k) then l.map (fun p => if p.1 == k then (k, v) else p)
  else l ++ [(k, v)]

/-- Lookup `d.get(k)` on an association list. -/
def getKey {α : Type} (l : List (String × α)) (k : String) : Option α :=
  (l.find? (fun p => p.1 == k)).map (fun p => p.2)

/-- Removal `d.pop(k, None)` on an association list. -/
def popKey {α : Type} (l : List (String × α)) (k : String) : List (String × α) :=
  l.filter (fun p => p.1 != k)

mutual

/-- The canonical JSON image of a Python value: the value that
`json.loads(json.dumps(x, default=str))` returns for `x` in the
JSON-serializable universe.  Leaves are unchanged; dict keys are rendered
as strings by `keyStr`; duplicate rendered keys collapse with
first-position / last-value semantics, exactly as repeated assignment into
a fresh Python dict behaves during parsing. -/
def jsonCanonical : PyVal → PyVal
  | .pstr s => .pstr s
  | .pint n => .pint n
  | .pbool b => .pbool b
  | .pnone => .pnone
  | .plist xs => .plist (jsonCanonicalList xs)
  | .pdict kvs =>
      .pdict (((jsonCanonicalKVs kvs).foldl (fun acc kv => setKey acc kv.1 kv.2) []).map
        (fun p => (PyKey.kstr p.1, p.2)))

/-- Canonicalize every element of a JSON array. -/
def jsonCanonicalList : List PyVal → List PyVal
  | [] => []
  | x :: xs => jsonCanonical x :: jsonCanonicalList xs

/-- Render the keys of a dict and canonicalize its values. -/
def jsonCanonicalKVs : List (PyKey × PyVal) → List (String × PyVal)
  | [] => []
  | (k, v) :: rest => (keyStr k, jsonCanonical v) :: jsonCanonicalKVs rest

end

mutual

/-- The JSON-faithful Python values: those whose serialization round-trips
to an equal value.  All dict keys must already be strings (an `int` key,
for instance, is silently rendered as its decimal string) and, per CPython
dict construction, keys are pairwise distinct. -/
def jsonFaithful : PyVal → Bool
  | .pstr _ => true
  | .pint _ => true
  | .pbool _ => true
  | .pnone => true
  | .plist xs => jsonFaithfulList xs
  | .pdict kvs => jsonFaithfulKVs kvs

/-- Faithfulness of every element of a list. -/
def jsonFaithfulList : List PyVal → Bool
  | [] => true
  | x :: xs => jsonFaithful x && jsonFaithfulList xs

/-- Faithfulness of a dict body: every key a string not repeated later,
every value faithful. -/
def jsonFaithfulKVs : List (PyKey × PyVal) → Bool
  | [] => true
  | (PyKey.kstr s, v) :: rest =>
      !(rest.any (fun kv => kv.1 == PyKey.kstr s)) && jsonFaithful v && jsonFaithfulKVs rest
  | (_, _) :: _ => false

end

/-! ## The memory store (`MemoryManager`) -/

/-- `MemoryType` from `src/core/memory.py`. -/
inductive MemoryType where
  | episodic
  | semantic
  | procedural
  | working
deriving DecidableEq, Repr

/-- `store` accepts either a `MemoryType` or its name as a string, resolved
by `getattr(MemoryType, memory_type.upper(), MemoryType.WORKING)`. -/
def resolveMemoryType : Sum String MemoryType → MemoryType
  | .inr t => t
  | .inl s =>
    match pyUpper s with
    | "EPISODIC" => .episodic
    | "SEMANTIC" => .semantic
    | "PROCEDURAL" => .procedural
    | "WORKING" => .working
    | _ => .working

/-- The `content` slot of a stored `MemoryItem`.  In Python, serialized
structured data and plain text are both `str`; the model distinguishes the
string that `json.dumps` produced (`cjson v` stands for `json.dumps(v)`),
a plain string (`cstr`), and a non-string Python object (`cval`), which is
what deserialization on read produces. -/
inductive Content where
  | cstr : String → Content
  | cjson : PyVal → Content
  | cval : PyVal → Content

/-- `MemoryItem` from `src/core/memory.py`.  The embedding is a pure
function of the embedded text (`_embed` is deterministic), so it is
represented by the content whose textual form was embedded; `quality` and
`access_count` are constant in the code and omitted. -/
structure MemoryItem where
  id : Nat
  type : MemoryType
  content : Content
  createdAt : Int
  metadata : List (String × PyVal)
  tags : List String
  expiresAt : Option Int
  embedding : Option Content

/-- `MemoryQuery` from `src/core/memory.py`.  `threshold` and similarity
values are exact rationals (Python floats are dyadic rationals). -/
structure MemoryQuery where
  text : Option String := none
  memoryType : Option MemoryType := none
  tags : Option (List String) := none
  limit : Int := 10
  threshold : ℚ := 7 / 10

/-- The state of a `MemoryManager`: the insertion-ordered record table and
the fresh-id counter modelling `uuid4` (uniqueness is all the code uses). -/
structure MemoryState where
  items : List MemoryItem
  nextId : Nat

/-- Well-formedness of a reachable store state: ids are pairwise distinct
and below the fresh-id counter. -/
def MemoryState.WF (st : MemoryState) : Prop :=
  (st.items.map (fun m => m.id)).Nodup ∧ ∀ m ∈ st.items, m.id < st.nextId

instance (st : MemoryState) : Decidable st.WF := by
  unfold MemoryState.WF; infer_instance

namespace MemoryManager

/-- The content-processing branch of `store`: structured content is
serialized (`cjson` stands for the `json.dumps` text), strings are kept,
and everything else is stored as-is. -/
def processContent (content : PyVal) : Content :=
  match content with
  | .pdict _ => Content.cjson content
  | .plist _ => Content.cjson content
  | .pstr s => Content.cstr s
  | _ => Content.cval content

/-- The `_content_type` marker written by the same branch of `store`:
`"dict"` / `"list"` for serialized structured content, `"json_string"` for
a string that `json.loads` accepts, nothing otherwise. -/
def markMetadata (loads : String → Option PyVal) (content : PyVal)
    (meta0 : List (String × PyVal)) : List (String × PyVal) :=
  match content with
  | .pdict _ => setKey meta0 "_content_type" (PyVal.pstr "dict")
  | .plist _ => setKey meta0 "_content_type" (PyVal.pstr "list")
  | .pstr s =>
      if (loads s).isSome then setKey meta0 "_content_type" (PyVal.pstr "json_string")
      else meta0
  | _ => meta0

/-- `MemoryManager.store`.  `loads` abstracts `json.loads` on plain-string
content (used only to decide the `json_string` marker); `now` is
`datetime.now()`; `expiresIn` is the `expires_in` minutes argument, tested
for Python truthiness (`if expires_in:`), so `0` sets no expiry.  Returns
the new state and the fresh id. -/
def store (loads : String → Option PyVal) (st : MemoryState) (content : PyVal)
    (memoryType : Sum String MemoryType) (metadata : Option (List (String × PyVal)))
    (tags : Option (List String)) (expiresIn : Option Int) (now : Int) :
    MemoryState × Nat :=
  let memoryId := st.nextId
  let processed := processContent content
  let md := markMetadata loads content (metadata.getD [])
  let embedding : Option Content :=
    match processed with
    | Content.cstr s => if pyStrip s = "" then none else some processed
    | Content.cjson _ => some processed
    | Content.cval _ => none
  let expiresAt : Option Int :=
    match expiresIn with
    | some t => if t = 0 then none else some (now + t)
    | none => none
  let item : MemoryItem :=
    { id := memoryId, type := resolveMemoryType memoryType, content := processed,
      createdAt := now, metadata := md, tags := tags.getD [], expiresAt := expiresAt,
      embedding := embedding }
  ({ items := st.items ++ [item], nextId := st.nextId + 1 }, memoryId)

/-- The record that `store` appends, written out (definitionally equal to
the item built inside `store`; see `store_eq`). -/
def storedItem (loads : String → Option PyVal) (st : MemoryState) (content : PyVal)
    (memoryType : Sum String MemoryType) (metadata : Option (List (String × PyVal)))
    (tags : Option (List String)) (expiresIn : Option Int) (now : Int) : MemoryItem :=
  { id := st.nextId, type := resolveMemoryType memoryType,
    content := processContent content, createdAt := now,
    metadata := markMetadata loads content (metadata.getD []),
    tags := tags.getD [],
    expiresAt :=
      match expiresIn with
      | some t => if t = 0 then none else some (now + t)
      | none => none,
    embedding :=
      match processContent content with
      | Content.cstr s => if pyStrip s = "" then none else some (processContent content)
      | Content.cjson _ => some (processContent content)
      | Content.cval _ => none }

/-- Marker test `content_type in ["dict", "list", "json_string"]`. -/
def structuredMarker (md : List (String × PyVal)) : Bool :=
  match getKey md "_content_type" with
  | some (PyVal.pstr s) => s == "dict" || s == "list" || s == "json_string"
  | _ => false

/-- The string heuristic of `get` / `retrieve`: a plain string whose
stripped form is shorter than 10000 characters and is brace- or
bracket-delimited is opportunistically re-parsed. -/
def looksStructured (s : String) : Bool :=
  let t := pyStrip s
  t.length < 10000 &&
    ((pyStartsWith t "\x7b" && pyEndsWith t "\x7d")
      || (pyStartsWith t "[" && pyEndsWith t "]"))

/-- The deserialization pass shared by `get` and `retrieve`.  The code
mutates `item.content` in place; reads always produce the value modelled
here, so the pass is modelled as a pure function of the item.  Serialized
structured content always carries its marker (set by `store`) and its text
always parses back to the canonical JSON image; on a plain string the
marker branch applies the abstract `loads` and pops the marker only when
parsing succeeds (the `pop` follows `json.loads` in the `try` block). -/
def deserializeContent (loads : String → Option PyVal) (item : MemoryItem) : MemoryItem :=
  match item.content with
  | Content.cjson v =>
      if structuredMarker item.metadata then
        { item with content := Content.cval (jsonCanonical v),
                    metadata := popKey item.metadata "_content_type" }
      else { item with content := Content.cval (jsonCanonical v) }
  | Content.cstr s =>
      if structuredMarker item.metadata then
        match loads s with
        | some v => { item with content := Content.cval v,
                                metadata := popKey item.metadata "_content_type" }
        | none => item
      else if looksStructured s then
        match loads s with
        | some v => { item with content := Content.cval v }
        | none => item
      else item
  | Content.cval _ => item

/-- `MemoryManager.get`: single-record lookup plus the deserialization
pass.  Note that it takes no notion of time: expiry is never consulted. -/
def get (loads : String → Option PyVal) (st : MemoryState) (memoryId : Nat) :
    Option MemoryItem :=
  match st.items.find? (fun m => m.id == memoryId) with
  | none => none
  | some item => some (deserializeContent loads item)

/-- Python slicing `l[:k]`, including the negative-index case. -/
def pySlice {α : Type} (l : List α) (k : Int) : List α :=
  l.take (if 0 ≤ k then k else (l.length : Int) + k).toNat

/-- The filtering prefix of `retrieve`: the `memory_type` filter, then the
non-empty tag-intersection filter.  Both guards are Python-truthiness
tests (`if query.memory_type:` / `if query.tags:`), so `tags = set()`
disables the tag filter. -/
def filterQuery (st : MemoryState) (q : MemoryQuery) : List MemoryItem :=
  let r0 := st.items
  let r1 := match q.memoryType with
    | none => r0
    | some t => r0.filter (fun m => m.type == t)
  match q.tags with
  | none => r1
  | some ts => if ts.isEmpty then r1
      else r1.filter (fun m => ts.any (fun t => m.tags.contains t))

/-- The vector-search branch of `retrieve`: score every candidate that has
an embedding against the query text, keep those at or above the threshold,
and sort by descending similarity (`sorted(..., reverse=True)` — a stable
descending sort). -/
def rankQuery (sim : String → Content → ℚ) (t : String) (threshold : ℚ)
    (l : List MemoryItem) : List MemoryItem :=
  let scored := l.filterMap (fun m => m.embedding.map (fun c => (m, sim t c)))
  let kept := scored.filter (fun p => threshold ≤ p.2)
  (kept.mergeSort (fun a b => decide (b.2 ≤ a.2))).map (fun p => p.1)

/-- `MemoryManager.retrieve`.  `sim` abstracts the cosine similarity of the
query embedding against a stored embedding (a pure function of the query
text and of the content the stored vector was computed from).  Filters are
applied first; ranking runs only when `query.text` is truthy; finally the
list is truncated to `limit` and the deserialization pass is mapped over
the survivors. -/
def retrieve (loads : String → Option PyVal) (sim : String → Content → ℚ)
    (st : MemoryState) (q : MemoryQuery) : List MemoryItem :=
  let r2 := filterQuery st q
  let r3 := match q.text with
    | none => r2
    | some t => if t = "" then r2 else rankQuery sim t q.threshold r2
  (pySlice r3 q.limit).map (deserializeContent loads)

/-- Is this item expired at instant `now` (`now > v.expires_at`)? -/
def isExpired (m : MemoryItem) (now : Int) : Bool :=
  match m.expiresAt with
  | some e => decide (e < now)
  | none => false

/-- `MemoryManager.cleanup`: removes every expired record and returns how
many were removed.  (The embedding-cache truncation touches only the cache,
not the record table, and does not affect the return value.) -/
def cleanup (st : MemoryState) (now : Int) : MemoryState × Nat :=
  let expired := st.items.filter (fun m => isExpired m now)
  ({ items := st.items.filter (fun m => !(isExpired m now)), nextId := st.nextId },
   expired.length)

end MemoryManager

/-! ## The Orchestrator retry policy (`src/agents/coordinator_agent.py`) -/

/-- The observable outcome of `CoordinatorAgent._execute_with_retry` on one
stage: the returned value or the re-raised last error, the number of times
the stage function was invoked, and the backoff sleeps (in seconds)
performed between consecutive attempts. -/
structure RetryOutcome where
  result : Except String String
  invocations : Nat
  sleeps : List Nat
deriving Repr

/-- The retry loop body: `fuel` is the number of retries still allowed
(`max_retries - attempt`), `attempt` the current zero-based attempt index.
On success the loop returns immediately; on failure with retries left it
sleeps `2 ^ attempt` seconds and recurses; on the last allowed attempt the
error is re-raised. -/
def retryGo (f : Nat → Except String String) : Nat → Nat → RetryOutcome
  | fuel, attempt =>
    match f attempt, fuel with
    | .ok a, _ => ⟨.ok a, 1, []⟩
    | .error e, 0 => ⟨.error e, 1, []⟩
    | .error _, fuel' + 1 =>
        let r := retryGo f fuel' (attempt + 1)
        ⟨r.result, r.invocations + 1, 2 ^ attempt :: r.sleeps⟩

/-- `CoordinatorAgent._execute_with_retry`: attempt the stage function up
to `maxRetries + 1` times.  The stage function is modelled as an oracle
from the attempt index to that invocation's outcome. -/
def executeWithRetry (f : Nat → Except String String) (maxRetries : Nat) : RetryOutcome :=
  retryGo f maxRetries 0

/-- The observable outcome of `CoordinatorAgent.orchestrate`: the final
result (the three stage results, or the propagated error) together with the
number of invocations of each stage function. -/
structure OrchOutcome where
  result : Except String (String × String × String)
  planningCalls : Nat
  buildingCalls : Nat
  reviewingCalls : Nat
deriving Repr

/-- `CoordinatorAgent.orchestrate`: the strict
planning → building → reviewing pipeline.  Each stage runs under
`executeWithRetry`; when a stage exhausts its retries the error propagates
out of `orchestrate` (the `except` block re-raises) and the later stages
are never started. -/
def orchestrate (planning building reviewing : Nat → Except String String)
    (maxRetries : Nat) : OrchOutcome :=
  let p := executeWithRetry planning maxRetries
  match p.result with
  | .error e => ⟨.error e, p.invocations, 0, 0⟩
  | .ok planId =>
    let b := executeWithRetry building maxRetries
    match b.result with
    | .error e => ⟨.error e, p.invocations, b.invocations, 0⟩
    | .ok executionId =>
      let r := executeWithRetry reviewing maxRetries
      match r.result with
      | .error e => ⟨.error e, p.invocations, b.invocations, r.invocations⟩
      | .ok reviewId =>
          ⟨.ok (planId, executionId, reviewId), p.invocations, b.invocations, r.invocations⟩

/-! ## The Execution Engine (`src/agents/builder_agent.py`) -/

/-- The slice of the execution context that `_execute_sequential`'s
recovery path manipulates: `recovery_context = context.copy()` plus
`retry = True` and `original_error = str(e)`. -/
structure ExecCtx where
  retry : Bool := false
  originalError : Option String := none
deriving DecidableEq, Repr

/-- The augmented context used for the single recovery attempt. -/
def retryCtx (ctx : ExecCtx) (e : String) : ExecCtx :=
  { ctx with retry := true, originalError := some e }

/-- One entry of the execution report, mirroring the result dictionaries
built by `BuilderAgent` (`subtask`, `success`, `result` on success,
`error` on failure, `index`; the simulated `execution_time` is randomized
noise and not modelled). -/
structure SubtaskResult where
  subtask : String
  success : Bool
  result : Option String
  error : Option String
  index : Nat
deriving DecidableEq, Repr

/-- The dictionary returned by `_execute_subtask` on success. -/
def successResult (subtask : String) (r : String) (i : Nat) : SubtaskResult :=
  ⟨subtask, true, some r, none, i⟩

/-- The failure dictionary recorded by the execution loops. -/
def failureResult (subtask : String) (e : String) (i : Nat) : SubtaskResult :=
  ⟨subtask, false, none, some e, i⟩

/-- One iteration of the sequential loop: run the subtask; on failure with
error recovery enabled, retry exactly once under the augmented context; if
that also fails, record a permanent failure for this index; with recovery
disabled, record the failure immediately.  `behavior` is the oracle for
`_execute_subtask` (context, index, subtask ↦ outcome). -/
def execSeqStep (behavior : ExecCtx → Nat → String → Except String String)
    (errorRecovery : Bool) (ctx : ExecCtx) (i : Nat) (st : String) : SubtaskResult :=
  match behavior ctx i st with
  | .ok r => successResult st r i
  | .error e =>
    if errorRecovery then
      match behavior (retryCtx ctx e) i st with
      | .ok r => successResult st r i
      | .error e2 => failureResult st e2 i
    else failureResult st e i

/-- The sequential loop from index `i` on: every iteration appends exactly
one result and continues with the next subtask. -/
def executeSequentialFrom (behavior : ExecCtx → Nat → String → Except String String)
    (errorRecovery : Bool) (ctx : ExecCtx) : Nat → List String → List SubtaskResult
  | _, [] => []
  | i, st :: rest =>
      execSeqStep behavior errorRecovery ctx i st ::
        executeSequentialFrom behavior errorRecovery ctx (i + 1) rest

/-- `BuilderAgent._execute_sequential`. -/
def executeSequential (behavior : ExecCtx → Nat → String → Except String String)
    (errorRecovery : Bool) (ctx : ExecCtx) (subtasks : List String) : List SubtaskResult :=
  executeSequentialFrom behavior errorRecovery ctx 0 subtasks

/-- `execute_with_semaphore`: each parallel subtask is independently
wrapped so that a failure becomes a failed `SubtaskResult` instead of an
escaping exception. -/
def wrapOne (behavior : ExecCtx → Nat → String → Except String String)
    (ctx : ExecCtx) (i : Nat) (st : String) : SubtaskResult :=
  match behavior ctx i st with
  | .ok r => successResult st r i
  | .error e => failureResult st e i

/-- The value `asyncio.gather(..., return_exceptions=True)` records for
task `i`: either an unexpected fault that escaped the wrapper (captured as
an exception object, `Sum.inl`) or the wrapper's result (`Sum.inr`).
`faults` is the oracle for unexpected faults. -/
def taskOutcome (behavior : ExecCtx → Nat → String → Except String String)
    (ctx : ExecCtx) (faults : Nat → Option String) (subtasks : List String)
    (i : Nat) : Sum String SubtaskResult :=
  match faults i with
  | some e => .inl e
  | none => .inr (wrapOne behavior ctx i (subtasks.getD i ""))

/-- The completion log of a run in which the scheduler finishes tasks in
the order given by the schedule `σ`: each completion records the task's
original index next to its value. -/
def runSched {α : Type} (compute : Nat → α) (σ : List Nat) : List (Nat × α) :=
  σ.map (fun i => (i, compute i))

/-- `asyncio.gather`'s collection step: slot `i` of the returned list holds
the value completed for original index `i`, whatever the completion order
was (`none` can only appear if some index never completed). -/
def collectOrdered {α : Type} (n : Nat) (log : List (Nat × α)) : List (Option α) :=
  (List.range n).map (fun i => (log.find? (fun p => p.1 == i)).map (fun p => p.2))

/-- The gather model: run the `n` tasks under completion schedule `σ` and
collect the results by original index. -/
def gatherModel {α : Type} (compute : Nat → α) (σ : List Nat) (n : Nat) : List (Option α) :=
  collectOrdered n (runSched compute σ)

/-- One entry of the post-processing loop of `_execute_parallel`: an entry
that is an exception object becomes a failed result for its index; a
normal entry is kept.  (A missing entry cannot occur when the schedule
completes every task; the defensive default mirrors the failure shape.) -/
def processEntry (subtasks : List String) (i : Nat)
    (o : Option (Sum String SubtaskResult)) : SubtaskResult :=
  match o with
  | some (.inl e) => failureResult (subtasks.getD i "") e i
  | some (.inr r) => r
  | none => failureResult (subtasks.getD i "") "missing" i

/-- The post-processing loop of `_execute_parallel`
(`for i, result in enumerate(results)`), from position `i` on. -/
def processGatheredFrom (subtasks : List String) :
    Nat → List (Option (Sum String SubtaskResult)) → List SubtaskResult
  | _, [] => []
  | i, o :: rest => processEntry subtasks i o :: processGatheredFrom subtasks (i + 1) rest

/-- The post-processing loop of `_execute_parallel`. -/
def processGathered (subtasks : List String)
    (outs : List (Option (Sum String SubtaskResult))) : List SubtaskResult :=
  processGatheredFrom subtasks 0 outs

/-- The entry that parallel execution produces for index `i`: an unexpected
fault becomes a failed result; otherwise the wrapper's result stands. -/
def parallelEntry (behavior : ExecCtx → Nat → String → Except String String)
    (ctx : ExecCtx) (faults : Nat → Option String) (subtasks : List String)
    (i : Nat) : SubtaskResult :=
  match taskOutcome behavior ctx faults subtasks i with
  | .inl e => failureResult (subtasks.getD i "") e i
  | .inr r => r

/-- `BuilderAgent._execute_parallel`, parameterized by the nondeterministic
completion schedule `σ` (any permutation of the task indices). -/
def executeParallel (behavior : ExecCtx → Nat → String → Except String String)
    (ctx : ExecCtx) (faults : Nat → Option String) (subtasks : List String)
    (σ : List Nat) : List SubtaskResult :=
  processGathered subtasks
    (gatherModel (taskOutcome behavior ctx faults subtasks) σ subtasks.length)

/-! ## The Scoring Stage (`src/agents/reviewer_agent.py`) -/

/-- The embedding dimension: `_embed` takes `h[:48]` of an MD5 digest, and
an MD5 digest has 16 bytes, so the vectors have 16 components. -/
def embedDim : Nat := 16

noncomputable section RealScores

/-- The raw (pre-normalization) embedding: each digest byte divided by
255.  `digest` abstracts the MD5 byte function — the bounds below hold for
every byte function, so no property of MD5 is assumed beyond determinism.
The scores are idealized over `ℝ` because the source normalizes with a
square root; accuracy, which is exact rational arithmetic in the source as
well, stays computable below. -/
def rawEmbed (digest : String → Fin embedDim → ℕ) (s : String) : Fin embedDim → ℝ :=
  fun i => (digest s i : ℝ) / 255

/-- `np.linalg.norm`: the Euclidean norm of a vector. -/
def vecNorm (v : Fin embedDim → ℝ) : ℝ :=
  Real.sqrt (∑ i, v i ^ 2)

/-- `MemoryManager._embed`: the raw vector, normalized to unit length when
its norm is positive. -/
def embedVec (digest : String → Fin embedDim → ℕ) (s : String) : Fin embedDim → ℝ :=
  let arr := rawEmbed digest s
  if 0 < vecNorm arr then fun i => arr i / vecNorm arr else arr

/-- Cosine similarity of two vectors: the dot product over the product of
norms. -/
def cosineSimilarity (v w : Fin embedDim → ℝ) : ℝ :=
  (∑ i, v i * w i) / (vecNorm v * vecNorm w)

/-- `ReviewerAgent._calculate_similarity`: zero when either text is empty
or either embedding has zero norm, the cosine similarity otherwise. -/
def calculateSimilarity (digest : String → Fin embedDim → ℕ) (t1 t2 : String) : ℝ :=
  if t1 = "" ∨ t2 = "" then 0
  else
    let e1 := embedVec digest t1
    let e2 := embedVec digest t2
    if vecNorm e1 = 0 ∨ vecNorm e2 = 0 then 0
    else cosineSimilarity e1 e2

/-- `ReviewerAgent._calculate_quality`: the similarity of the two textual
projections of the plan and of the execution (the projections themselves
are string formatting; the score depends on them only through
`calculateSimilarity`). -/
def calculateQuality (digest : String → Fin embedDim → ℕ)
    (planText executionText : String) : ℝ :=
  calculateSimilarity digest planText executionText

/-- The default scoring weights of `ReviewerAgent` (`accuracy: 0.6,
quality: 0.4`). -/
def defaultWeightAccuracy : ℝ := 6 / 10

/-- The default quality weight. -/
def defaultWeightQuality : ℝ := 4 / 10

/-- The weighted final score computed by `review_execution`. -/
def finalScore (accuracy quality wAccuracy wQuality : ℝ) : ℝ :=
  accuracy * wAccuracy + quality * wQuality

end RealScores

/-- `ReviewerAgent._calculate_accuracy`: the number of execution results
flagged successful divided by the number of planned subtasks, `0.0` for an
empty plan.  Note that the division is by the plan length, not by the
result count.  The quotient is exact, so it is modelled in `ℚ`. -/
def calculateAccuracy (planSubtasks : List String) (results : List SubtaskResult) : ℚ :=
  if planSubtasks = [] then 0
  else ((results.countP (fun r => r.success)) : ℚ) / (planSubtasks.length : ℚ)

/-! ## The Decomposition Stage (`src/agents/planner_agent.py`) -/

/-- Python's substring test `sub in s`, on the character lists. -/
def hasSubstr (s sub : String) : Bool :=
  go sub.toList s.toList
where
  /-- Check `sub` against every suffix. -/
  go (sub : List Char) : List Char → Bool
    | [] => sub.isEmpty
    | c :: rest => sub.isPrefixOf (c :: rest) || go sub rest

/-- `any(keyword in t for keyword in kws)`. -/
def containsAnyKeyword (t : String) (kws : List String) : Bool :=
  kws.any (fun k => hasSubstr t k)

/-- `PlannerAgent._classify_task`: keyword classification into the fixed
category set, falling back to `general`. -/
def classifyTask (task : String) : String :=
  let t := pyLower task
  if containsAnyKeyword t ["code", "program", "script", "function", "class"] then
    "code_generation"
  else if containsAnyKeyword t ["research", "analyze", "study", "investigate"] then
    "research"
  else if containsAnyKeyword t ["document", "readme", "guide", "manual"] then
    "documentation"
  else if containsAnyKeyword t ["design", "architecture", "structure"] then
    "design"
  else if containsAnyKeyword t ["test", "validate", "verify", "check"] then
    "testing"
  else "general"

/-- `PlannerAgent.task_templates`, transcribed. -/
def taskTemplates : List (String × List String) :=
  [("general",
    ["Understand the task requirements",
     "Break down into logical components",
     "Assign responsibilities to sub-agents",
     "Set execution order and dependencies",
     "Execute planned steps",
     "Review and validate results"]),
   ("code_generation",
    ["Analyze requirements and constraints",
     "Design solution architecture",
     "Implement core functionality",
     "Add error handling and validation",
     "Create tests and documentation",
     "Review and optimize code"]),
   ("research",
    ["Define research scope and objectives",
     "Gather relevant sources and data",
     "Analyze and synthesize information",
     "Draw conclusions and insights",
     "Document findings and methodology"]),
   ("documentation",
    ["Understand target audience and purpose",
     "Gather existing information and resources",
     "Structure content outline",
     "Write comprehensive documentation",
     "Review for accuracy and clarity",
     "Format and finalize output"]),
   ("design",
    ["Analyze design requirements",
     "Create conceptual design",
     "Develop detailed specifications",
     "Review design feasibility",
     "Document design decisions"]),
   ("testing",
    ["Define testing scope and objectives",
     "Create test cases and scenarios",
     "Execute tests systematically",
     "Analyze test results",
     "Report findings and recommendations"])]

/-- The context flags consulted by `generate_subtasks` (`include_testing`,
`include_documentation`, `deadline` — the deadline is a truthiness test, so
an empty string counts as absent). -/
structure PlanContext where
  includeTesting : Bool := false
  includeDocumentation : Bool := false
  deadline : Option String := none
deriving DecidableEq, Repr

/-- Python `list.insert(n, a)`: inserts before position `n`, appending when
`n` is past the end. -/
def pyInsert {α : Type} (l : List α) (n : Nat) (a : α) : List α :=
  l.take n ++ a :: l.drop n

/-- The per-template-step rewriting of `generate_subtasks`. -/
def customizeStep (task : String) (tmpl : String) : String :=
  let tl := pyLower task
  if hasSubstr tl "code" then
    if hasSubstr (pyLower tmpl) "test" then "Create comprehensive tests for " ++ task
    else if hasSubstr (pyLower tmpl) "document" then "Document the implementation of " ++ task
    else tmpl
  else if hasSubstr tl "research" then
    if hasSubstr (pyLower tmpl) "gather" then "Research and collect data for: " ++ task
    else if hasSubstr (pyLower tmpl) "analyze" then "Analyze research findings from " ++ task
    else tmpl
  else tmpl ++ " for: " ++ task

/-- `PlannerAgent.generate_subtasks`.  When `taskType` is not a key of
`task_templates` the source logs "Using general planning template" but
never assigns `base_subtasks`, so the subsequent `for` loop raises
`UnboundLocalError`; that crash is modelled as `none`. -/
def generateSubtasks (task : String) (taskType : String) (ctx : PlanContext) :
    Option (List String) :=
  match getKey taskTemplates taskType with
  | none => none
  | some baseSubtasks =>
    let customized := baseSubtasks.map (customizeStep task)
    let c1 := if ctx.includeTesting then customized ++ ["Create and run comprehensive tests"]
              else customized
    let c2 := if ctx.includeDocumentation then c1 ++ ["Generate documentation and usage examples"]
              else c1
    let c3 := match ctx.deadline with
      | some d => if d = "" then c2 else c2 ++ ["Ensure completion by " ++ d]
      | none => c2
    let tl := pyLower task
    let c4 := if hasSubstr tl "api" || hasSubstr tl "web" then
                pyInsert c3 2 "Design API endpoints and data structures" else c3
    let c5 := if hasSubstr tl "database" || hasSubstr tl "storage" then
                pyInsert c4 2 "Design database schema and relationships" else c4
    let c6 := if hasSubstr tl "ui" || hasSubstr tl "interface" then
                pyInsert c5 2 "Design user interface components" else c5
    some c6

/-! ## Theorems

The development now turns to the claims.  Helper lemmas come first, then
one theorem per claim (with a witness when the theorem has hypotheses).
-/

/-- Unfolding: a successful attempt stops the retry loop at once. -/
theorem retryGo_ok (f : Nat → Except String String) (fuel attempt : Nat) (a : String)
    (hf : f attempt = .ok a) : retryGo f fuel attempt = ⟨.ok a, 1, []⟩ := by
  unfold retryGo
  rw [hf]

/-- Unfolding: a failure on the last allowed attempt re-raises. -/
theorem retryGo_err_zero (f : Nat → Except String String) (attempt : Nat) (e : String)
    (hf : f attempt = .error e) : retryGo f 0 attempt = ⟨.error e, 1, []⟩ := by
  unfold retryGo
  rw [hf]

/-- Unfolding: a failure with retries left sleeps `2 ^ attempt` and
continues with the next attempt. -/
theorem retryGo_err_succ (f : Nat → Except String String) (fuel attempt : Nat) (e : String)
    (hf : f attempt = .error e) :
    retryGo f (fuel + 1) attempt =
      ⟨(retryGo f fuel (attempt + 1)).result,
       (retryGo f fuel (attempt + 1)).invocations + 1,
       2 ^ attempt :: (retryGo f fuel (attempt + 1)).sleeps⟩ := by
  conv_lhs => unfold retryGo
  rw [hf]

/-- Shift lemma for the sleep traces occurring in the retry proofs. -/
theorem range_pow_shift (attempt fuel : Nat) :
    (List.range (fuel + 1)).map (fun i => 2 ^ (attempt + i))
      = 2 ^ attempt :: (List.range fuel).map (fun i => 2 ^ (attempt + 1 + i)) := by
  rw [List.range_succ_eq_map, List.map_cons, List.map_map]
  refine congrArg₂ _ (by simp) (List.map_congr_left ?_)
  intro b _
  simp only [Function.comp]
  congr 1
  omega

/-- On an oracle that fails every attempt, the retry loop runs all
remaining attempts, sleeps `2 ^ attempt` between consecutive ones, and ends
with the error of the last attempt. -/
theorem retryGo_of_all_fail (f : Nat → Except String String) (err : Nat → String)
    (h : ∀ n, f n = .error (err n)) :
    ∀ fuel attempt, retryGo f fuel attempt =
      ⟨.error (err (attempt + fuel)), fuel + 1,
        (List.range fuel).map (fun i => 2 ^ (attempt + i))⟩ := by
  intro fuel
  induction fuel with
  | zero => intro attempt; rw [retryGo_err_zero f attempt _ (h attempt)]; simp
  | succ fuel ih =>
      intro attempt
      have hidx : attempt + 1 + fuel = attempt + (fuel + 1) := by omega
      rw [retryGo_err_succ f fuel attempt _ (h attempt), ih (attempt + 1),
        range_pow_shift attempt fuel]
      simp [hidx]

/-- On an oracle that fails on the first `k` attempts (counted from
`attempt`) and succeeds on the next one, the retry loop stops right at the
success, after `k + 1` invocations and `k` backoff sleeps. -/
theorem retryGo_of_k_failures (f : Nat → Except String String) (err : Nat → String)
    (a : String) :
    ∀ (k fuel attempt : Nat),
      (∀ i, i < k → f (attempt + i) = .error (err (attempt + i))) →
      f (attempt + k) = .ok a → k ≤ fuel →
      retryGo f fuel attempt =
        ⟨.ok a, k + 1, (List.range k).map (fun i => 2 ^ (attempt + i))⟩ := by
  intro k
  induction k with
  | zero =>
      intro fuel attempt _ hok _
      have hok' : f attempt = .ok a := by simpa using hok
      rw [retryGo_ok f fuel attempt a hok']
      simp
  | succ k ih =>
      intro fuel attempt hfail hok hle
      rcases fuel with _ | fuel'
      · omega
      · have h0 : f attempt = .error (err attempt) := by
          have := hfail 0 (by omega); simpa using this
        rw [retryGo_err_succ f fuel' attempt _ h0]
        rw [ih fuel' (attempt + 1)
          (fun i hi => by
            have h2 : attempt + 1 + i = attempt + (i + 1) := by omega
            rw [h2]; exact hfail (i + 1) (by omega))
          (by have h1 : attempt + 1 + k = attempt + (k + 1) := by omega
              rw [h1]; exact hok)
          (by omega)]
        rw [range_pow_shift attempt k]

/-- Claim C2: a stage function that fails on every invocation is invoked
exactly `maxRetries + 1` times by the retry wrapper, which then re-raises
the error of the last attempt; with such a stage as the building stage (and
a planning stage that succeeds), `orchestrate` fails with that error, the
building stage records `maxRetries + 1` invocations, and the reviewing
stage is never invoked. -/
theorem retry_exhaustion_halts_pipeline
    (building : Nat → Except String String) (err : Nat → String) (maxRetries : Nat)
    (hfail : ∀ n, building n = .error (err n))
    (planning reviewing : Nat → Except String String) (p0 : String)
    (hplan : planning 0 = .ok p0) :
    (executeWithRetry building maxRetries).invocations = maxRetries + 1
    ∧ (executeWithRetry building maxRetries).result = .error (err maxRetries)
    ∧ (orchestrate planning building reviewing maxRetries).result = .error (err maxRetries)
    ∧ (orchestrate planning building reviewing maxRetries).buildingCalls = maxRetries + 1
    ∧ (orchestrate planning building reviewing maxRetries).reviewingCalls = 0 := by
  have hb : executeWithRetry building maxRetries =
      ⟨.error (err maxRetries), maxRetries + 1,
        (List.range maxRetries).map (fun i => 2 ^ i)⟩ := by
    have := retryGo_of_all_fail building err hfail maxRetries 0
    simpa [executeWithRetry] using this
  have hp : executeWithRetry planning maxRetries = ⟨.ok p0, 1, []⟩ := by
    have := retryGo_of_k_failures planning (fun _ => "") p0 0 maxRetries 0
      (by omega) (by simpa using hplan) (by omega)
    simpa [executeWithRetry] using this
  refine ⟨by rw [hb], by rw [hb], ?_, ?_, ?_⟩ <;>
    simp [orchestrate, hp, hb]

/-- Witness for C2 at a concrete instance: `maxRetries = 2`, a building
stage that always fails, a planning stage that succeeds immediately. -/
theorem retry_exhaustion_halts_pipeline_witness :
    ((fun _ : Nat => (Except.error "boom" : Except String String)) 1 = .error "boom")
    ∧ (orchestrate (fun _ => .ok "plan") (fun _ => .error "boom") (fun _ => .ok "rev") 2).result
        = .error "boom"
    ∧ (orchestrate (fun _ => .ok "plan") (fun _ => .error "boom") (fun _ => .ok "rev") 2).buildingCalls = 3
    ∧ (orchestrate (fun _ => .ok "plan") (fun _ => .error "boom") (fun _ => .ok "rev") 2).reviewingCalls = 0 :=
  ⟨rfl,
   (retry_exhaustion_halts_pipeline (fun _ => .error "boom") (fun _ => "boom") 2
      (fun _ => rfl) (fun _ => .ok "plan") (fun _ => .ok "rev") "plan" rfl).2.2.1,
   (retry_exhaustion_halts_pipeline (fun _ => .error "boom") (fun _ => "boom") 2
      (fun _ => rfl) (fun _ => .ok "plan") (fun _ => .ok "rev") "plan" rfl).2.2.2.1,
   (retry_exhaustion_halts_pipeline (fun _ => .error "boom") (fun _ => "boom") 2
      (fun _ => rfl) (fun _ => .ok "plan") (fun _ => .ok "rev") "plan" rfl).2.2.2.2⟩

/-- Claim C3: a stage function that fails exactly `k < maxRetries + 1`
times and then succeeds makes the retry wrapper return the successful
result after exactly `k + 1` invocations, with backoff sleeps of
`2 ^ 0, …, 2 ^ (k - 1)` seconds between consecutive attempts. -/
theorem retry_returns_after_k_failures
    (f : Nat → Except String String) (err : Nat → String) (a : String)
    (k maxRetries : Nat)
    (hfail : ∀ i, i < k → f i = .error (err i)) (hok : f k = .ok a)
    (hk : k < maxRetries + 1) :
    executeWithRetry f maxRetries =
      ⟨.ok a, k + 1, (List.range k).map (fun i => 2 ^ i)⟩ := by
  have := retryGo_of_k_failures f err a k maxRetries 0
    (fun i hi => by simpa using hfail i hi) (by simpa using hok) (by omega)
  simpa [executeWithRetry] using this

/-- Witness for C3 at a concrete instance: two failures then success with
`maxRetries = 2`; the result arrives on the third invocation after sleeping
1 and 2 seconds. -/
theorem retry_returns_after_k_failures_witness :
    (2 < 2 + 1)
    ∧ (executeWithRetry (fun n => if n < 2 then .error "boom" else .ok "done") 2).result
        = .ok "done"
    ∧ (executeWithRetry (fun n => if n < 2 then .error "boom" else .ok "done") 2).invocations = 3
    ∧ (executeWithRetry (fun n => if n < 2 then .error "boom" else .ok "done") 2).sleeps = [1, 2] := by
  have h := retry_returns_after_k_failures
    (fun n => if n < 2 then .error "boom" else .ok "done") (fun _ => "boom") "done" 2 2
    (fun i hi => by interval_cases i <;> rfl) rfl (by omega)
  exact ⟨by omega, by rw [h], by rw [h], by rw [h]; rfl⟩

/-- The sequential loop emits exactly one result per subtask. -/
theorem executeSequentialFrom_length
    (behavior : ExecCtx → Nat → String → Except String String)
    (errorRecovery : Bool) (ctx : ExecCtx) :
    ∀ (subtasks : List String) (start : Nat),
      (executeSequentialFrom behavior errorRecovery ctx start subtasks).length
        = subtasks.length := by
  intro subtasks
  induction subtasks with
  | nil => intro start; rfl
  | cons st rest ih =>
      intro start
      simp [executeSequentialFrom, ih (start + 1)]

/-- The `i`-th entry of the sequential loop's output is the step result for
the `i`-th subtask, independently of the other subtasks' outcomes. -/
theorem executeSequentialFrom_getElem
    (behavior : ExecCtx → Nat → String → Except String String)
    (errorRecovery : Bool) (ctx : ExecCtx) :
    ∀ (subtasks : List String) (start i : Nat), i < subtasks.length →
      (executeSequentialFrom behavior errorRecovery ctx start subtasks)[i]?
        = some (execSeqStep behavior errorRecovery ctx (start + i) (subtasks.getD i "")) := by
  intro subtasks
  induction subtasks with
  | nil => intro start i hi; simp at hi
  | cons st rest ih =>
      intro start i hi
      match i with
      | 0 => simp [executeSequentialFrom]
      | i + 1 =>
          have hlt : i < rest.length := by simpa using hi
          have := ih (start + 1) i hlt
          have harith : start + 1 + i = start + (i + 1) := by omega
          rw [harith] at this
          simpa [executeSequentialFrom] using this

/-- Claim C4: in sequential execution with error recovery enabled, the
output has exactly one entry per input subtask and the `i`-th entry depends
only on the `i`-th subtask's outcomes: a failure is retried exactly once
under the context augmented by `retryCtx` (the `retry = True` flag plus the
original error); if the retry also fails, the entry is a failed result
carrying index `i` and the loop continues — no failure shortens the
output. -/
theorem sequential_recovery_isolation
    (behavior : ExecCtx → Nat → String → Except String String)
    (ctx : ExecCtx) (subtasks : List String) :
    (executeSequential behavior true ctx subtasks).length = subtasks.length
    ∧ (∀ i, i < subtasks.length →
        (executeSequential behavior true ctx subtasks)[i]?
          = some (execSeqStep behavior true ctx i (subtasks.getD i "")))
    ∧ (∀ i e e2, i < subtasks.length →
        behavior ctx i (subtasks.getD i "") = .error e →
        behavior (retryCtx ctx e) i (subtasks.getD i "") = .error e2 →
        (executeSequential behavior true ctx subtasks)[i]?
          = some (failureResult (subtasks.getD i "") e2 i))
    ∧ (∀ i e r, i < subtasks.length →
        behavior ctx i (subtasks.getD i "") = .error e →
        behavior (retryCtx ctx e) i (subtasks.getD i "") = .ok r →
        (executeSequential behavior true ctx subtasks)[i]?
          = some (successResult (subtasks.getD i "") r i)) := by
  refine ⟨executeSequentialFrom_length behavior true ctx subtasks 0, ?_, ?_, ?_⟩
  · intro i hi
    simpa using executeSequentialFrom_getElem behavior true ctx subtasks 0 i hi
  · intro i e e2 hi h1 h2
    have hget := executeSequentialFrom_getElem behavior true ctx subtasks 0 i hi
    simp only [Nat.zero_add] at hget
    rw [executeSequential, hget]
    refine congrArg _ ?_
    unfold execSeqStep
    rw [h1]
    simp only [if_true]
    rw [h2]
  · intro i e r hi h1 h2
    have hget := executeSequentialFrom_getElem behavior true ctx subtasks 0 i hi
    simp only [Nat.zero_add] at hget
    rw [executeSequential, hget]
    refine congrArg _ ?_
    unfold execSeqStep
    rw [h1]
    simp only [if_true]
    rw [h2]

/-- Witness for C4 at a concrete instance: three subtasks, of which the one
at index 1 fails on both the first attempt and the retry; the batch still
yields three entries and entry 1 is the permanent failure for index 1. -/
theorem sequential_recovery_isolation_witness :
    ((1 : Nat) < ["a", "b", "c"].length)
    ∧ (executeSequential
        (fun _ i _ => if i = 1 then .error "fail" else .ok "ok") true {} ["a", "b", "c"]).length = 3
    ∧ (executeSequential
        (fun _ i _ => if i = 1 then .error "fail" else .ok "ok") true {} ["a", "b", "c"])[1]?
        = some (failureResult "b" "fail" 1) :=
  ⟨by decide,
   by
    have := (sequential_recovery_isolation
      (fun _ i _ => if i = 1 then .error "fail" else .ok "ok") {} ["a", "b", "c"]).1
    simpa using this,
   (sequential_recovery_isolation
      (fun _ i _ => if i = 1 then .error "fail" else .ok "ok") {} ["a", "b", "c"]).2.2.1
      1 "fail" "fail" (by decide) rfl rfl⟩

/-- In the completion log of any schedule that ran task `i`, lookup by
original index finds exactly task `i`'s value. -/
theorem find?_runSched {α : Type} (compute : Nat → α) :
    ∀ (σ : List Nat) (i : Nat), i ∈ σ →
      (runSched compute σ).find? (fun p => p.1 == i) = some (i, compute i) := by
  intro σ
  induction σ with
  | nil => intro i hi; cases hi
  | cons j rest ih =>
      intro i hi
      by_cases h : j = i
      · subst h
        simp [runSched]
      · have hi' : i ∈ rest := by
          cases hi with
          | head => exact absurd rfl h
          | tail _ hmem => exact hmem
        simpa [runSched, h] using ih i hi'

/-- The gather model is schedule-independent: under any completion
permutation, slot `i` of the collected list holds task `i`'s value. -/
theorem gatherModel_of_perm {α : Type} (compute : Nat → α) (σ : List Nat) (n : Nat)
    (hσ : σ.Perm (List.range n)) :
    gatherModel compute σ n = (List.range n).map (fun i => some (compute i)) := by
  unfold gatherModel collectOrdered
  refine List.map_congr_left ?_
  intro i hi
  have hmem : i ∈ σ := hσ.mem_iff.mpr hi
  rw [find?_runSched compute σ i hmem]
  rfl

/-- The post-processing loop over slots that all completed, with the
position counter aligned to the original indices. -/
theorem processGatheredFrom_range' (subtasks : List String)
    (out : Nat → Sum String SubtaskResult) :
    ∀ (n start : Nat),
      processGatheredFrom subtasks start ((List.range' start n).map (fun j => some (out j)))
        = (List.range' start n).map (fun j => processEntry subtasks j (some (out j))) := by
  intro n
  induction n with
  | zero => intro start; rfl
  | succ n ih =>
      intro start
      rw [List.range'_succ]
      simp only [List.map_cons, processGatheredFrom]
      rw [ih (start + 1)]

/-- Under any completion permutation, parallel execution returns the
canonical index-ordered result list. -/
theorem executeParallel_of_perm
    (behavior : ExecCtx → Nat → String → Except String String) (ctx : ExecCtx)
    (faults : Nat → Option String) (subtasks : List String) (σ : List Nat)
    (hσ : σ.Perm (List.range subtasks.length)) :
    executeParallel behavior ctx faults subtasks σ
      = (List.range subtasks.length).map (parallelEntry behavior ctx faults subtasks) := by
  unfold executeParallel processGathered
  rw [gatherModel_of_perm _ σ _ hσ, List.range_eq_range']
  rw [processGatheredFrom_range' subtasks (taskOutcome behavior ctx faults subtasks)
    subtasks.length 0]
  refine List.map_congr_left ?_
  intro i _
  cases h : taskOutcome behavior ctx faults subtasks i <;>
    simp [processEntry, parallelEntry, h]

/-- Claim C5: parallel execution returns its results in original index
order regardless of the completion order: under every completion
permutation `σ` the output equals the output under the canonical order, has
one entry per subtask, and its `i`-th entry is determined by subtask `i`
alone — an unexpected fault of task `i` becomes a failed entry at position
`i` (carrying index `i` and subtask `i`), never an escaping exception, and
leaves every sibling entry unchanged. -/
theorem parallel_order_isolation
    (behavior : ExecCtx → Nat → String → Except String String) (ctx : ExecCtx)
    (faults : Nat → Option String) (subtasks : List String) (σ : List Nat)
    (hσ : σ.Perm (List.range subtasks.length)) :
    executeParallel behavior ctx faults subtasks σ
      = executeParallel behavior ctx faults subtasks (List.range subtasks.length)
    ∧ (executeParallel behavior ctx faults subtasks σ).length = subtasks.length
    ∧ (∀ i, i < subtasks.length →
        (executeParallel behavior ctx faults subtasks σ)[i]?
          = some (parallelEntry behavior ctx faults subtasks i))
    ∧ (∀ i e, i < subtasks.length → faults i = some e →
        (executeParallel behavior ctx faults subtasks σ)[i]?
          = some (failureResult (subtasks.getD i "") e i))
    ∧ (∀ i, i < subtasks.length →
        ∃ r, (executeParallel behavior ctx faults subtasks σ)[i]? = some r
          ∧ r.index = i ∧ r.subtask = subtasks.getD i "") := by
  have hcanon := executeParallel_of_perm behavior ctx faults subtasks σ hσ
  have hget : ∀ i, i < subtasks.length →
      (executeParallel behavior ctx faults subtasks σ)[i]?
        = some (parallelEntry behavior ctx faults subtasks i) := by
    intro i hi
    rw [hcanon, List.getElem?_map, List.getElem?_range hi]
    rfl
  refine ⟨?_, ?_, hget, ?_, ?_⟩
  · rw [hcanon,
      executeParallel_of_perm behavior ctx faults subtasks _ (List.Perm.refl _)]
  · rw [hcanon]; simp
  · intro i e hi hf
    rw [hget i hi]
    simp [parallelEntry, taskOutcome, hf]
  · intro i hi
    refine ⟨parallelEntry behavior ctx faults subtasks i, hget i hi, ?_⟩
    unfold parallelEntry taskOutcome
    cases faults i with
    | some e => exact ⟨rfl, rfl⟩
    | none =>
        unfold wrapOne
        cases behavior ctx i (subtasks.getD i "") <;> exact ⟨rfl, rfl⟩

/-- Witness for C5 at a concrete instance: two subtasks completing in
reversed order, with an unexpected fault in task 0; the output is in index
order with the fault converted into a failed entry at position 0. -/
theorem parallel_order_isolation_witness :
    ([1, 0].Perm (List.range 2))
    ∧ (executeParallel (fun _ _ _ => .ok "done") {}
        (fun i => if i = 0 then some "crash" else none) ["a", "b"] [1, 0]).length = 2
    ∧ (executeParallel (fun _ _ _ => .ok "done") {}
        (fun i => if i = 0 then some "crash" else none) ["a", "b"] [1, 0])[0]?
        = some (failureResult "a" "crash" 0) :=
  ⟨by decide,
   (parallel_order_isolation (fun _ _ _ => .ok "done") {}
      (fun i => if i = 0 then some "crash" else none) ["a", "b"] [1, 0] (by decide)).2.1,
   (parallel_order_isolation (fun _ _ _ => .ok "done") {}
      (fun i => if i = 0 then some "crash" else none) ["a", "b"] [1, 0] (by decide)).2.2.2.1
      0 "crash" (by decide) rfl⟩

/-- Every component of an embedding vector is nonnegative: digest bytes are
nonnegative, and normalization divides by a positive norm. -/
theorem embedVec_nonneg (digest : String → Fin embedDim → ℕ) (s : String) (i : Fin embedDim) :
    0 ≤ embedVec digest s i := by
  have hraw : ∀ j, (0 : ℝ) ≤ rawEmbed digest s j := fun j => by
    unfold rawEmbed
    positivity
  unfold embedVec
  by_cases h : 0 < vecNorm (rawEmbed digest s)
  · simp only [h, if_true]
    exact div_nonneg (hraw i) h.le
  · simp only [h, if_false]
    exact hraw i

/-- The Euclidean norm is nonnegative. -/
theorem vecNorm_nonneg (v : Fin embedDim → ℝ) : 0 ≤ vecNorm v :=
  Real.sqrt_nonneg _

/-- Cosine similarity of two componentwise-nonnegative vectors with
nonzero norms lies in `[0, 1]` (Cauchy–Schwarz for the upper bound). -/
theorem cosineSimilarity_bounds (v w : Fin embedDim → ℝ)
    (hv : ∀ i, 0 ≤ v i) (hw : ∀ i, 0 ≤ w i)
    (hv0 : vecNorm v ≠ 0) (hw0 : vecNorm w ≠ 0) :
    0 ≤ cosineSimilarity v w ∧ cosineSimilarity v w ≤ 1 := by
  have hdot : (0 : ℝ) ≤ ∑ i, v i * w i :=
    Finset.sum_nonneg (fun i _ => mul_nonneg (hv i) (hw i))
  have hvpos : 0 < vecNorm v := lt_of_le_of_ne (vecNorm_nonneg v) (Ne.symm hv0)
  have hwpos : 0 < vecNorm w := lt_of_le_of_ne (vecNorm_nonneg w) (Ne.symm hw0)
  have hden : 0 < vecNorm v * vecNorm w := mul_pos hvpos hwpos
  have hsq : (∑ i, v i * w i) ^ 2 ≤ (∑ i, v i ^ 2) * ∑ i, w i ^ 2 :=
    Finset.sum_mul_sq_le_sq_mul_sq Finset.univ v w
  have hcs : (∑ i, v i * w i) ≤ vecNorm v * vecNorm w := by
    have h1 : (∑ i, v i * w i) = Real.sqrt ((∑ i, v i * w i) ^ 2) :=
      (Real.sqrt_sq hdot).symm
    have h2 : Real.sqrt ((∑ i, v i * w i) ^ 2)
        ≤ Real.sqrt ((∑ i, v i ^ 2) * ∑ i, w i ^ 2) := Real.sqrt_le_sqrt hsq
    have h3 : Real.sqrt ((∑ i, v i ^ 2) * ∑ i, w i ^ 2) = vecNorm v * vecNorm w := by
      unfold vecNorm
      exact Real.sqrt_mul (Finset.sum_nonneg (fun i _ => sq_nonneg _)) _
    calc (∑ i, v i * w i) = Real.sqrt ((∑ i, v i * w i) ^ 2) := h1
      _ ≤ Real.sqrt ((∑ i, v i ^ 2) * ∑ i, w i ^ 2) := h2
      _ = vecNorm v * vecNorm w := h3
  constructor
  · exact div_nonneg hdot hden.le
  · rw [cosineSimilarity, div_le_one hden]
    exact hcs

/-- `_calculate_similarity` always returns a value in `[0, 1]`, for every
digest function and every pair of texts. -/
theorem calculateSimilarity_bounds (digest : String → Fin embedDim → ℕ) (t1 t2 : String) :
    0 ≤ calculateSimilarity digest t1 t2 ∧ calculateSimilarity digest t1 t2 ≤ 1 := by
  unfold calculateSimilarity
  by_cases hempty : t1 = "" ∨ t2 = ""
  · simp [hempty]
  · simp only [hempty, if_false]
    by_cases hz : vecNorm (embedVec digest t1) = 0 ∨ vecNorm (embedVec digest t2) = 0
    · simp [hz]
    · simp only [hz, if_false]
      push_neg at hz
      exact cosineSimilarity_bounds _ _ (embedVec_nonneg digest t1)
        (embedVec_nonneg digest t2) hz.1 hz.2

/-- Counterexample to Claim C6 as stated: a plan with one subtask reviewed
against an execution payload containing two successful results (which
`review_execution` accepts — it only rejects an empty plan) yields
`accuracy = 2`, outside `[0, 1]`. -/
theorem review_accuracy_exceeds_one :
    calculateAccuracy ["Implement core functionality"]
      [successResult "a" "r1" 0, successResult "a" "r2" 0] = 2
    ∧ ¬ (calculateAccuracy ["Implement core functionality"]
      [successResult "a" "r1" 0, successResult "a" "r2" 0] ≤ 1) := by
  have hc : ([successResult "a" "r1" 0, successResult "a" "r2" 0].countP
      (fun r => r.success)) = 2 := by decide
  constructor
  · simp [calculateAccuracy, hc]
  · simp [calculateAccuracy, hc]

/-- Claim C6 (amended): whenever the number of successful execution
results does not exceed the number of planned subtasks — as is the case for
every execution report produced from the plan itself, which has exactly one
entry per planned index — accuracy lies in `[0, 1]`; quality always lies in
`[0, 1]`; and with the default weights `0.6 / 0.4` the final weighted score
lies in `[0, 1]` as well.  Accuracy is the successful-result count divided
by the planned-subtask count, and is `0` for an empty plan. -/
theorem review_scores_bounded (digest : String → Fin embedDim → ℕ)
    (planSubtasks : List String) (results : List SubtaskResult)
    (planText executionText : String)
    (h : results.countP (fun r => r.success) ≤ planSubtasks.length) :
    (0 ≤ calculateAccuracy planSubtasks results
      ∧ calculateAccuracy planSubtasks results ≤ 1)
    ∧ (0 ≤ calculateQuality digest planText executionText
      ∧ calculateQuality digest planText executionText ≤ 1)
    ∧ (0 ≤ finalScore ((calculateAccuracy planSubtasks results : ℚ) : ℝ)
        (calculateQuality digest planText executionText)
        defaultWeightAccuracy defaultWeightQuality
      ∧ finalScore ((calculateAccuracy planSubtasks results : ℚ) : ℝ)
        (calculateQuality digest planText executionText)
        defaultWeightAccuracy defaultWeightQuality ≤ 1) := by
  have hacc : 0 ≤ calculateAccuracy planSubtasks results
      ∧ calculateAccuracy planSubtasks results ≤ 1 := by
    unfold calculateAccuracy
    by_cases hnil : planSubtasks = []
    · simp [hnil]
    · have hlen : (0 : ℚ) < (planSubtasks.length : ℚ) := by
        have : 0 < planSubtasks.length := List.length_pos.mpr hnil
        exact_mod_cast this
      constructor
      · simp only [hnil, if_false]
        positivity
      · simp only [hnil, if_false]
        rw [div_le_one hlen]
        exact_mod_cast h
  have hqual := calculateSimilarity_bounds digest planText executionText
  refine ⟨hacc, hqual, ?_, ?_⟩
  · unfold finalScore defaultWeightAccuracy defaultWeightQuality
    have h1 : (0 : ℝ) ≤ ((calculateAccuracy planSubtasks results : ℚ) : ℝ) := by
      exact_mod_cast hacc.1
    have h2 := hqual.1
    positivity
  · unfold finalScore defaultWeightAccuracy defaultWeightQuality calculateQuality
    have h1 : ((calculateAccuracy planSubtasks results : ℚ) : ℝ) ≤ 1 := by
      exact_mod_cast hacc.2
    have h2 := (calculateSimilarity_bounds digest planText executionText).2
    nlinarith [hacc.1, (calculateSimilarity_bounds digest planText executionText).1]

/-- Witness for C6 (amended) at a concrete instance: one planned subtask,
one successful result, the zero digest function. -/
theorem review_scores_bounded_witness :
    ([successResult "a" "r" 0].countP (fun r => r.success) ≤ ["plan step"].length)
    ∧ (0 ≤ calculateAccuracy ["plan step"] [successResult "a" "r" 0]
      ∧ calculateAccuracy ["plan step"] [successResult "a" "r" 0] ≤ 1) :=
  ⟨by decide,
   (review_scores_bounded (fun _ _ => 0) ["plan step"] [successResult "a" "r" 0]
      "p" "e" (by decide)).1⟩

/-- Claim C9: classification is total and lands in the fixed category set
with `general` as fallback — but subtask generation is not total: for a
category outside the template table the source's fallback branch logs
"Using general planning template" yet never assigns `base_subtasks`, so the
generation loop raises `UnboundLocalError` (modelled as `none`), while the
same task generates fine under the `general` template key. -/
theorem generate_subtasks_fallback_crash :
    (∀ task, classifyTask task ∈
      ["code_generation", "research", "documentation", "design", "testing", "general"])
    ∧ generateSubtasks "Deploy the service" "unknown_category" {} = none
    ∧ (generateSubtasks "Deploy the service" "general" {}).isSome = true
    ∧ classifyTask "Deploy the service" = "general" := by
  refine ⟨?_, rfl, rfl, by decide⟩
  intro task
  simp only [classifyTask]
  split_ifs <;> simp

/-- Looking up the key just assigned by `setKey` yields the assigned
value. -/
theorem getKey_setKey {α : Type} (l : List (String × α)) (k : String) (v : α) :
    getKey (setKey l k v) k = some v := by
  unfold setKey getKey
  by_cases h : l.any (fun p => p.1 == k) = true
  · rw [if_pos h]
    induction l with
    | nil => simp at h
    | cons p ps ih =>
        by_cases hp : (p.1 == k) = true
        · rw [List.map_cons, if_pos hp, List.find?_cons_of_pos _ (by simp)]
          rfl
        · have hps : ps.any (fun q => q.1 == k) = true := by
            rw [List.any_cons] at h
            rcases Bool.or_eq_true_iff.mp h with h1 | h2
            · exact absurd h1 hp
            · exact h2
          have hp' : (p.1 == k) = false := by simpa using hp
          rw [List.map_cons, if_neg hp, List.find?_cons, hp']
          exact ih hps
  · rw [if_neg h]
    rw [List.find?_append]
    have hnone : l.find? (fun p => p.1 == k) = none := by
      rw [List.find?_eq_none]
      intro x hx
      simp only [List.any_eq_true] at h
      exact fun hx' => h ⟨x, hx, hx'⟩
    rw [hnone]
    simp

/-- Assigning a fresh key appends the pair. -/
theorem setKey_of_not_mem {α : Type} (l : List (String × α)) (k : String) (v : α)
    (h : ∀ p ∈ l, p.1 ≠ k) : setKey l k v = l ++ [(k, v)] := by
  unfold setKey
  have : l.any (fun p => p.1 == k) = false := by
    rw [List.any_eq_false]
    intro p hp
    simpa using h p hp
  rw [this]
  simp

/-- Folding dict assignments of pairwise-fresh keys over an accumulator
that contains none of them appends the pairs in order. -/
theorem foldl_setKey_of_fresh {α : Type} :
    ∀ (l acc : List (String × α)),
      (∀ kv ∈ l, ∀ p ∈ acc, p.1 ≠ kv.1) →
      l.Pairwise (fun a b => a.1 ≠ b.1) →
      l.foldl (fun acc kv => setKey acc kv.1 kv.2) acc = acc ++ l := by
  intro l
  induction l with
  | nil => intro acc _ _; simp
  | cons kv rest ih =>
      intro acc hfresh hpair
      have hstep : setKey acc kv.1 kv.2 = acc ++ [kv] := by
        rw [setKey_of_not_mem acc kv.1 kv.2 (fun p hp => hfresh kv (by simp) p hp)]
      simp only [List.foldl_cons, hstep]
      rw [ih (acc ++ [kv]) ?_ (List.Pairwise.of_cons hpair)]
      · simp
      · intro kv' hkv' p hp
        rcases List.mem_append.mp hp with hacc | hsingle
        · exact hfresh kv' (by simp [hkv']) p hacc
        · have hpk : p = kv := by simpa using hsingle
          subst hpk
          exact (List.rel_of_pairwise_cons hpair hkv')

/-- In a faithful dict body every key is a string key. -/
theorem faithfulKVs_keys_kstr :
    ∀ (kvs : List (PyKey × PyVal)), jsonFaithfulKVs kvs = true →
      ∀ kv ∈ kvs, ∃ s, kv.1 = PyKey.kstr s := by
  intro kvs
  induction kvs with
  | nil => intro _ kv h; simp at h
  | cons p rest ih =>
      intro h kv hkv
      match p, h with
      | (PyKey.kstr s, v), h =>
          rcases hkv with _ | hkv'
          · exact ⟨s, rfl⟩
          · have htail : jsonFaithfulKVs rest = true := by
              unfold jsonFaithfulKVs at h
              simp only [Bool.and_eq_true] at h
              exact h.2
            exact ih htail kv (by assumption)

/-- In a faithful dict body the tail is faithful too, and the head's value
is faithful, and the head's key does not repeat. -/
theorem faithfulKVs_cons (s : String) (v : PyVal) (rest : List (PyKey × PyVal))
    (h : jsonFaithfulKVs ((PyKey.kstr s, v) :: rest) = true) :
    (rest.any (fun kv => kv.1 == PyKey.kstr s)) = false
    ∧ jsonFaithful v = true ∧ jsonFaithfulKVs rest = true := by
  unfold jsonFaithfulKVs at h
  simp only [Bool.and_eq_true, Bool.not_eq_true'] at h
  exact ⟨h.1.1, h.1.2, h.2⟩

/-- The rendered keys of a faithful dict body are pairwise distinct. -/
theorem faithfulKVs_rendered_pairwise :
    ∀ (kvs : List (PyKey × PyVal)), jsonFaithfulKVs kvs = true →
      (kvs.map (fun kv => (keyStr kv.1, kv.2))).Pairwise (fun a b => a.1 ≠ b.1) := by
  intro kvs
  induction kvs with
  | nil => intro _; simp
  | cons p rest ih =>
      intro h
      match p, h with
      | (PyKey.kstr s, v), h =>
          obtain ⟨hnorep, _, htail⟩ := faithfulKVs_cons s v rest h
          simp only [List.map_cons, List.pairwise_cons]
          refine ⟨?_, ih htail⟩
          intro b hb
          rcases List.mem_map.mp hb with ⟨kv, hkv, rfl⟩
          obtain ⟨t, ht⟩ := faithfulKVs_keys_kstr rest htail kv hkv
          rw [List.any_eq_false] at hnorep
          have hne : ¬ (kv.1 == PyKey.kstr s) = true := hnorep kv hkv
          simp only [keyStr, ht]
          intro hst
          apply hne
          rw [ht, hst]
          simp [keyStr]

/-- Re-wrapping the rendered keys of a faithful dict body restores it. -/
theorem rendered_rewrap :
    ∀ (kvs : List (PyKey × PyVal)), jsonFaithfulKVs kvs = true →
      (kvs.map (fun kv => (keyStr kv.1, kv.2))).map (fun p => (PyKey.kstr p.1, p.2)) = kvs := by
  intro kvs
  induction kvs with
  | nil => intro _; rfl
  | cons p rest ih =>
      intro h
      match p, h with
      | (PyKey.kstr s, v), h =>
          obtain ⟨_, _, htail⟩ := faithfulKVs_cons s v rest h
          simp only [List.map_cons]
          rw [ih htail]
          rfl

mutual

/-- The canonical JSON image of a faithful value is the value itself: the
serialization round trip is the identity exactly on the JSON-faithful
universe. -/
theorem jsonCanonical_of_faithful :
    ∀ x : PyVal, jsonFaithful x = true → jsonCanonical x = x
  | .pstr _, _ => rfl
  | .pint _, _ => rfl
  | .pbool _, _ => rfl
  | .pnone, _ => rfl
  | .plist xs, h => by
      have hxs : jsonFaithfulList xs = true := by simpa [jsonFaithful] using h
      unfold jsonCanonical
      rw [jsonCanonicalList_of_faithful xs hxs]
  | .pdict kvs, h => by
      have hkvs : jsonFaithfulKVs kvs = true := by simpa [jsonFaithful] using h
      unfold jsonCanonical
      rw [jsonCanonicalKVs_of_faithful kvs hkvs]
      rw [foldl_setKey_of_fresh (kvs.map (fun kv => (keyStr kv.1, kv.2))) []
        (by intro kv _ p hp; simp at hp) (faithfulKVs_rendered_pairwise kvs hkvs)]
      rw [List.nil_append, rendered_rewrap kvs hkvs]

/-- Canonicalization is the identity on faithful lists. -/
theorem jsonCanonicalList_of_faithful :
    ∀ xs : List PyVal, jsonFaithfulList xs = true → jsonCanonicalList xs = xs
  | [], _ => rfl
  | x :: xs, h => by
      have h1 : jsonFaithful x = true ∧ jsonFaithfulList xs = true := by
        simpa [jsonFaithfulList, Bool.and_eq_true] using h
      unfold jsonCanonicalList
      rw [jsonCanonical_of_faithful x h1.1, jsonCanonicalList_of_faithful xs h1.2]

/-- Canonicalizing a faithful dict body just renders its (string) keys. -/
theorem jsonCanonicalKVs_of_faithful :
    ∀ kvs : List (PyKey × PyVal), jsonFaithfulKVs kvs = true →
      jsonCanonicalKVs kvs = kvs.map (fun kv => (keyStr kv.1, kv.2))
  | [], _ => rfl
  | (PyKey.kstr s, v) :: rest, h => by
      obtain ⟨_, hv, htail⟩ := faithfulKVs_cons s v rest h
      unfold jsonCanonicalKVs
      rw [jsonCanonical_of_faithful v hv, jsonCanonicalKVs_of_faithful rest htail]
      rfl
  | (PyKey.kint _, _) :: _, h => by simp [jsonFaithfulKVs] at h
  | (PyKey.kbool _, _) :: _, h => by simp [jsonFaithfulKVs] at h
  | (PyKey.knone, _) :: _, h => by simp [jsonFaithfulKVs] at h

end

/-- Looking up a freshly appended id finds exactly the appended item. -/
theorem find?_append_fresh (items : List MemoryItem) (item : MemoryItem) (i : Nat)
    (hid : item.id = i) (h : ∀ m ∈ items, m.id ≠ i) :
    (items ++ [item]).find? (fun m => m.id == i) = some item := by
  rw [List.find?_append]
  have h1 : items.find? (fun m => m.id == i) = none := by
    rw [List.find?_eq_none]
    intro x hx
    simpa using h x hx
  rw [h1]
  simp [hid]

/-- Counterexample to Claim C1 as stated: the dict `{True: "a"}` (a
boolean key) is accepted by `store`, but `json.dumps` renders the key as
the string `"true"`, so `get` returns `{"true": "a"}`, which is not equal
to the stored value. -/
theorem json_roundtrip_counterexample :
    (MemoryManager.get (fun _ => none)
        (MemoryManager.store (fun _ => none) ⟨[], 0⟩
          (PyVal.pdict [(PyKey.kbool true, PyVal.pstr "a")])
          (.inr .working) none none none 0).1
        (MemoryManager.store (fun _ => none) ⟨[], 0⟩
          (PyVal.pdict [(PyKey.kbool true, PyVal.pstr "a")])
          (.inr .working) none none none 0).2).map (fun m => m.content)
      = some (Content.cval (PyVal.pdict [(PyKey.kstr "true", PyVal.pstr "a")]))
    ∧ PyVal.pdict [(PyKey.kstr "true", PyVal.pstr "a")]
        ≠ PyVal.pdict [(PyKey.kbool true, PyVal.pstr "a")] := by
  constructor
  · rfl
  · intro h
    simp at h

/-- Claim C1 (amended): for structured content in the JSON-faithful
universe — dicts and lists all of whose nested dict keys are strings (with
the pairwise-distinct keys every Python dict has) — storing and reading
back yields a content equal to the original.  Outside that universe the
round trip canonicalizes the value instead (see the counterexample). -/
theorem store_get_roundtrip_faithful (loads : String → Option PyVal) (st : MemoryState)
    (content : PyVal) (memoryType : Sum String MemoryType)
    (metadata : Option (List (String × PyVal))) (tags : Option (List String))
    (expiresIn : Option Int) (now : Int)
    (hwf : st.WF) (hstruct : isStructured content = true)
    (hfaith : jsonFaithful content = true) :
    (MemoryManager.get loads
        (MemoryManager.store loads st content memoryType metadata tags expiresIn now).1
        (MemoryManager.store loads st content memoryType metadata tags expiresIn now).2).map
      (fun m => m.content) = some (Content.cval content) := by
  have hfresh : ∀ m ∈ st.items, m.id ≠ st.nextId := by
    intro m hm
    have := hwf.2 m hm
    omega
  cases content with
  | pstr s => simp [isStructured] at hstruct
  | pint n => simp [isStructured] at hstruct
  | pbool b => simp [isStructured] at hstruct
  | pnone => simp [isStructured] at hstruct
  | plist xs =>
      have hproc : MemoryManager.processContent (PyVal.plist xs)
          = Content.cjson (PyVal.plist xs) := rfl
      have hmark : MemoryManager.structuredMarker
          (MemoryManager.markMetadata loads (PyVal.plist xs) (metadata.getD [])) = true := by
        unfold MemoryManager.markMetadata MemoryManager.structuredMarker
        rw [getKey_setKey]
        rfl
      simp only [MemoryManager.store, MemoryManager.get]
      rw [find?_append_fresh st.items _ st.nextId rfl (by simpa using hfresh)]
      simp only [hproc, MemoryManager.deserializeContent, hmark, if_true, Option.map_some,
        jsonCanonical_of_faithful _ hfaith]
      rfl
  | pdict kvs =>
      have hproc : MemoryManager.processContent (PyVal.pdict kvs)
          = Content.cjson (PyVal.pdict kvs) := rfl
      have hmark : MemoryManager.structuredMarker
          (MemoryManager.markMetadata loads (PyVal.pdict kvs) (metadata.getD [])) = true := by
        unfold MemoryManager.markMetadata MemoryManager.structuredMarker
        rw [getKey_setKey]
        rfl
      simp only [MemoryManager.store, MemoryManager.get]
      rw [find?_append_fresh st.items _ st.nextId rfl (by simpa using hfresh)]
      simp only [hproc, MemoryManager.deserializeContent, hmark, if_true, Option.map_some,
        jsonCanonical_of_faithful _ hfaith]
      rfl

/-- Witness for C1 (amended) at the spec's own example
`{"a": 1, "b": [1, 2]}`, stored into the empty store. -/
theorem store_get_roundtrip_faithful_witness :
    (MemoryState.WF ⟨[], 0⟩)
    ∧ isStructured (PyVal.pdict [(PyKey.kstr "a", PyVal.pint 1),
        (PyKey.kstr "b", PyVal.plist [PyVal.pint 1, PyVal.pint 2])]) = true
    ∧ jsonFaithful (PyVal.pdict [(PyKey.kstr "a", PyVal.pint 1),
        (PyKey.kstr "b", PyVal.plist [PyVal.pint 1, PyVal.pint 2])]) = true
    ∧ (MemoryManager.get (fun _ => none)
        (MemoryManager.store (fun _ => none) ⟨[], 0⟩
          (PyVal.pdict [(PyKey.kstr "a", PyVal.pint 1),
            (PyKey.kstr "b", PyVal.plist [PyVal.pint 1, PyVal.pint 2])])
          (.inr .working) none none none 0).1
        (MemoryManager.store (fun _ => none) ⟨[], 0⟩
          (PyVal.pdict [(PyKey.kstr "a", PyVal.pint 1),
            (PyKey.kstr "b", PyVal.plist [PyVal.pint 1, PyVal.pint 2])])
          (.inr .working) none none none 0).2).map (fun m => m.content)
      = some (Content.cval (PyVal.pdict [(PyKey.kstr "a", PyVal.pint 1),
          (PyKey.kstr "b", PyVal.plist [PyVal.pint 1, PyVal.pint 2])])) :=
  ⟨by decide, rfl, rfl,
   store_get_roundtrip_faithful (fun _ => none) ⟨[], 0⟩ _ (.inr .working) none none none 0
     (by decide) rfl rfl⟩

/-- `store` appends exactly the `storedItem` record and hands out the
fresh id. -/
theorem store_eq (loads : String → Option PyVal) (st : MemoryState) (content : PyVal)
    (memoryType : Sum String MemoryType) (metadata : Option (List (String × PyVal)))
    (tags : Option (List String)) (expiresIn : Option Int) (now : Int) :
    MemoryManager.store loads st content memoryType metadata tags expiresIn now
      = ({ items := st.items ++
            [MemoryManager.storedItem loads st content memoryType metadata tags expiresIn now],
           nextId := st.nextId + 1 }, st.nextId) := rfl

/-- Splitting a list's length by a Boolean predicate. -/
theorem length_filter_not_add {α : Type} (p : α → Bool) (l : List α) :
    (l.filter (fun a => !(p a))).length + (l.filter p).length = l.length := by
  induction l with
  | nil => rfl
  | cons x xs ih =>
      cases h : p x <;> simp [List.filter_cons, h] <;> omega

/-- Claim C8 (amended to nonzero ttl): a record stored with a nonzero ttl
is present immediately after storing; after `cleanup` runs at an instant
strictly past its expiry the record is absent; and `cleanup` returns
exactly the number of records it removed in that call. -/
theorem store_cleanup_expiry (loads : String → Option PyVal) (st : MemoryState)
    (content : PyVal) (memoryType : Sum String MemoryType)
    (metadata : Option (List (String × PyVal))) (tags : Option (List String))
    (t now now2 : Int) (hwf : st.WF) (ht : t ≠ 0) (hpast : now + t < now2) :
    (MemoryManager.get loads
        (MemoryManager.store loads st content memoryType metadata tags (some t) now).1
        (MemoryManager.store loads st content memoryType metadata tags (some t) now).2).isSome
      = true
    ∧ MemoryManager.get loads
        (MemoryManager.cleanup
          (MemoryManager.store loads st content memoryType metadata tags (some t) now).1
          now2).1
        (MemoryManager.store loads st content memoryType metadata tags (some t) now).2 = none
    ∧ (MemoryManager.cleanup
          (MemoryManager.store loads st content memoryType metadata tags (some t) now).1
          now2).2
      = (MemoryManager.store loads st content memoryType metadata tags (some t) now).1.items.length
        - (MemoryManager.cleanup
            (MemoryManager.store loads st content memoryType metadata tags (some t) now).1
            now2).1.items.length := by
  have hfresh : ∀ m ∈ st.items, m.id ≠ st.nextId := by
    intro m hm
    have := hwf.2 m hm
    omega
  have hexp : MemoryManager.isExpired
      (MemoryManager.storedItem loads st content memoryType metadata tags (some t) now) now2
      = true := by
    have hea : (MemoryManager.storedItem loads st content memoryType metadata tags
        (some t) now).expiresAt = some (now + t) := by
      show (if t = 0 then none else some (now + t) : Option Int) = some (now + t)
      rw [if_neg ht]
    unfold MemoryManager.isExpired
    rw [hea]
    simpa using hpast
  refine ⟨?_, ?_, ?_⟩
  · simp only [store_eq, MemoryManager.get]
    rw [find?_append_fresh st.items _ st.nextId rfl hfresh]
    rfl
  · simp only [store_eq, MemoryManager.cleanup, MemoryManager.get]
    have hnone : List.find? (fun m => m.id == st.nextId)
        ((st.items ++
          [MemoryManager.storedItem loads st content memoryType metadata tags (some t) now]).filter
          (fun m => !(MemoryManager.isExpired m now2))) = none := by
      rw [List.find?_eq_none]
      intro x hx
      obtain ⟨hmem, hpred⟩ := List.mem_filter.mp hx
      rcases List.mem_append.mp hmem with hold | hnew
      · simpa using hfresh x hold
      · have hx' : x = MemoryManager.storedItem loads st content memoryType metadata tags
            (some t) now := by simpa using hnew
        rw [hx', hexp] at hpred
        simp at hpred
    rw [hnone]
  · simp only [store_eq, MemoryManager.cleanup]
    have := length_filter_not_add (fun m => MemoryManager.isExpired m now2)
      (st.items ++
        [MemoryManager.storedItem loads st content memoryType metadata tags (some t) now])
    omega

/-- Witness for C8 (amended) at a concrete instance: ttl 5, stored at
instant 0 into the empty store, cleaned up at instant 10. -/
theorem store_cleanup_expiry_witness :
    (MemoryState.WF ⟨[], 0⟩) ∧ ((5 : Int) ≠ 0) ∧ ((0 : Int) + 5 < 10)
    ∧ (MemoryManager.get (fun _ => none)
        (MemoryManager.store (fun _ => none) ⟨[], 0⟩ (PyVal.pstr "hello") (.inr .working)
          none none (some 5) 0).1
        (MemoryManager.store (fun _ => none) ⟨[], 0⟩ (PyVal.pstr "hello") (.inr .working)
          none none (some 5) 0).2).isSome = true
    ∧ MemoryManager.get (fun _ => none)
        (MemoryManager.cleanup
          (MemoryManager.store (fun _ => none) ⟨[], 0⟩ (PyVal.pstr "hello") (.inr .working)
            none none (some 5) 0).1 10).1
        (MemoryManager.store (fun _ => none) ⟨[], 0⟩ (PyVal.pstr "hello") (.inr .working)
          none none (some 5) 0).2 = none :=
  ⟨by decide, by decide, by decide,
   (store_cleanup_expiry (fun _ => none) ⟨[], 0⟩ (PyVal.pstr "hello") (.inr .working)
      none none 5 0 10 (by decide) (by decide) (by decide)).1,
   (store_cleanup_expiry (fun _ => none) ⟨[], 0⟩ (PyVal.pstr "hello") (.inr .working)
      none none 5 0 10 (by decide) (by decide) (by decide)).2.1⟩

/-- Counterexample to Claim C8 as stated, at ttl `0`: Python's truthiness
test `if expires_in:` treats `0` as absent, so the record never expires —
`cleanup` at instant 100 (past `storeTime + ttl = 0`) removes nothing and
the record is still retrievable. -/
theorem zero_ttl_counterexample :
    (MemoryManager.cleanup
        (MemoryManager.store (fun _ => none) ⟨[], 0⟩ (PyVal.pstr "hello") (.inr .working)
          none none (some 0) 0).1 100).2 = 0
    ∧ (MemoryManager.get (fun _ => none)
        (MemoryManager.cleanup
          (MemoryManager.store (fun _ => none) ⟨[], 0⟩ (PyVal.pstr "hello") (.inr .working)
            none none (some 0) 0).1 100).1
        (MemoryManager.store (fun _ => none) ⟨[], 0⟩ (PyVal.pstr "hello") (.inr .working)
          none none (some 0) 0).2).isSome = true := ⟨rfl, rfl⟩

/-- In a store with pairwise-distinct ids, lookup by a member's id finds
exactly that member. -/
theorem find?_id_of_nodup :
    ∀ (items : List MemoryItem) (m : MemoryItem),
      (items.map (fun x => x.id)).Nodup → m ∈ items →
      items.find? (fun x => x.id == m.id) = some m := by
  intro items
  induction items with
  | nil => intro m _ hm; cases hm
  | cons x xs ih =>
      intro m hnodup hm
      simp only [List.map_cons, List.nodup_cons] at hnodup
      rcases List.mem_cons.mp hm with rfl | hm'
      · rw [List.find?_cons_of_pos _ (by simp)]
      · have hne : (x.id == m.id) = false := by
          have : x.id ≠ m.id := by
            intro he
            exact hnodup.1 (he ▸ List.mem_map_of_mem (fun y => y.id) hm')
          simpa using this
        rw [List.find?_cons, hne]
        exact ih m hnodup.2 hm'

/-- `l[:len(l)]` is `l`. -/
theorem pySlice_length {α : Type} (l : List α) :
    MemoryManager.pySlice l (l.length : Int) = l := by
  unfold MemoryManager.pySlice
  rw [if_pos (by exact_mod_cast Nat.zero_le _)]
  rw [Int.toNat_natCast]
  exact List.take_length l

/-- Claim C10: expiry is enforced only by `cleanup`.  `get` takes no
notion of time at all: as long as `cleanup` has not run, a record whose
expiry instant has already passed is still returned by `get`, and
`retrieve` (here with no filters and a limit covering the store) still
includes it in its results. -/
theorem expired_record_visible_before_cleanup (loads : String → Option PyVal)
    (sim : String → Content → ℚ) (st : MemoryState) (m : MemoryItem) (e now : Int)
    (hnodup : (st.items.map (fun x => x.id)).Nodup) (hm : m ∈ st.items)
    (hexp : m.expiresAt = some e) (hpast : e < now) :
    MemoryManager.get loads st m.id = some (MemoryManager.deserializeContent loads m)
    ∧ MemoryManager.deserializeContent loads m ∈
        MemoryManager.retrieve loads sim st ⟨none, none, none, (st.items.length : Int), 7/10⟩ := by
  constructor
  · unfold MemoryManager.get
    rw [find?_id_of_nodup st.items m hnodup hm]
  · simp only [MemoryManager.retrieve, MemoryManager.filterQuery]
    rw [pySlice_length]
    exact List.mem_map_of_mem _ hm

/-- Witness for C10 at a concrete instance: a single record that expired
at instant 0, read at instant 5 with no `cleanup` in between. -/
theorem expired_record_visible_before_cleanup_witness :
    (([(⟨0, MemoryType.working, Content.cstr "x", 0, [], [], some 0, none⟩ : MemoryItem)].map
        (fun x => x.id)).Nodup)
    ∧ ((0 : Int) < 5)
    ∧ MemoryManager.get (fun _ => none)
        ⟨[⟨0, MemoryType.working, Content.cstr "x", 0, [], [], some 0, none⟩], 1⟩ 0
      = some (MemoryManager.deserializeContent (fun _ => none)
          ⟨0, MemoryType.working, Content.cstr "x", 0, [], [], some 0, none⟩) :=
  ⟨by decide, by decide,
   (expired_record_visible_before_cleanup (fun _ => none) (fun _ _ => 0)
      ⟨[⟨0, MemoryType.working, Content.cstr "x", 0, [], [], some 0, none⟩], 1⟩
      ⟨0, MemoryType.working, Content.cstr "x", 0, [], [], some 0, none⟩ 0 5
      (by decide) (List.mem_cons_self _ _) rfl (by decide)).1⟩

/-- The deserialization pass only rewrites `content` and `metadata`: the
record's type, tags and embedding are untouched. -/
theorem deserialize_preserves (loads : String → Option PyVal) (m : MemoryItem) :
    (MemoryManager.deserializeContent loads m).type = m.type
    ∧ (MemoryManager.deserializeContent loads m).tags = m.tags
    ∧ (MemoryManager.deserializeContent loads m).embedding = m.embedding := by
  unfold MemoryManager.deserializeContent
  rcases hc : m.content with s | v | v <;> simp only [hc] <;> (repeat' split) <;> simp

/-- A slice with a nonnegative bound has at most that many elements. -/
theorem pySlice_length_le {α : Type} (l : List α) (k : Int) (hk : 0 ≤ k) :
    ((MemoryManager.pySlice l k).length : Int) ≤ k := by
  unfold MemoryManager.pySlice
  rw [if_pos hk]
  have h1 : (l.take k.toNat).length ≤ k.toNat := by
    rw [List.length_take]
    exact Nat.min_le_left _ _
  calc ((l.take k.toNat).length : Int) ≤ (k.toNat : Int) := by exact_mod_cast h1
    _ = k := Int.toNat_of_nonneg hk

/-- Slicing selects from the original list. -/
theorem pySlice_subset {α : Type} (l : List α) (k : Int) :
    ∀ x ∈ MemoryManager.pySlice l k, x ∈ l := by
  intro x hx
  unfold MemoryManager.pySlice at hx
  exact List.mem_of_mem_take hx

/-- Slices inherit pairwise relations from the original list. -/
theorem pySlice_pairwise {α : Type} {R : α → α → Prop} (l : List α) (k : Int)
    (h : l.Pairwise R) : (MemoryManager.pySlice l k).Pairwise R := by
  unfold MemoryManager.pySlice
  exact h.sublist (List.take_sublist _ _)

/-- Every survivor of the filtering prefix satisfies the kind filter and
the tag-intersection filter demanded by the query. -/
theorem mem_filterQuery (st : MemoryState) (q : MemoryQuery) (m : MemoryItem)
    (hm : m ∈ MemoryManager.filterQuery st q) :
    (∀ tp, q.memoryType = some tp → m.type = tp)
    ∧ (∀ ts, q.tags = some ts → ts ≠ [] → ∃ tg ∈ ts, tg ∈ m.tags) := by
  simp only [MemoryManager.filterQuery] at hm
  constructor
  · intro tp htp
    rcases hq : q.tags with _ | ts <;> simp only [hq, htp] at hm
    · simpa using (List.mem_filter.mp hm).2
    · by_cases hts : ts.isEmpty = true
      · rw [if_pos hts] at hm
        simpa using (List.mem_filter.mp hm).2
      · rw [if_neg hts] at hm
        simpa using (List.mem_filter.mp (List.mem_filter.mp hm).1).2
  · intro ts hts hne
    simp only [hts] at hm
    have hts' : ¬ (ts.isEmpty = true) := by
      cases ts with
      | nil => exact absurd rfl hne
      | cons a l => simp
    rw [if_neg hts'] at hm
    have hpred := (List.mem_filter.mp hm).2
    rw [List.any_eq_true] at hpred
    obtain ⟨tg, htg, hcontains⟩ := hpred
    exact ⟨tg, htg, by simpa using hcontains⟩

/-- Every item the ranking branch returns comes from its input, carries an
embedding, and its similarity to the query text meets the threshold. -/
theorem rankQuery_mem (sim : String → Content → ℚ) (t : String) (thr : ℚ)
    (l : List MemoryItem) :
    ∀ x ∈ MemoryManager.rankQuery sim t thr l,
      x ∈ l ∧ ∃ c, x.embedding = some c ∧ thr ≤ sim t c := by
  intro x hx
  simp only [MemoryManager.rankQuery] at hx
  rcases List.mem_map.mp hx with ⟨p, hp, rfl⟩
  rw [List.mem_mergeSort] at hp
  obtain ⟨hpscored, hpthr⟩ := List.mem_filter.mp hp
  rcases List.mem_filterMap.mp hpscored with ⟨m, hml, hmap⟩
  rcases Option.map_eq_some'.mp hmap with ⟨c, hc, hpc⟩
  rw [← hpc]
  exact ⟨hml, c, hc, by
    rw [← hpc] at hpthr
    simpa using hpthr⟩

/-- The ranking branch returns its survivors sorted by descending
similarity to the query text. -/
theorem rankQuery_sorted (sim : String → Content → ℚ) (t : String) (thr : ℚ)
    (l : List MemoryItem) :
    (MemoryManager.rankQuery sim t thr l).Pairwise
      (fun a b => ∀ ca cb, a.embedding = some ca → b.embedding = some cb →
        sim t cb ≤ sim t ca) := by
  simp only [MemoryManager.rankQuery]
  rw [List.pairwise_map]
  have hsorted := @List.sorted_mergeSort (MemoryItem × ℚ)
    (fun a b => decide (b.2 ≤ a.2))
    (fun a b c hab hbc => by
      have hab' : b.2 ≤ a.2 := by simpa using hab
      have hbc' : c.2 ≤ b.2 := by simpa using hbc
      simpa using le_trans hbc' hab')
    (fun a b => by
      rcases le_total b.2 a.2 with h | h <;> simp [h])
    ((l.filterMap (fun m => m.embedding.map (fun c => (m, sim t c)))).filter
      (fun p => decide (thr ≤ p.2)))
  have hfact : ∀ p ∈ ((l.filterMap (fun m => m.embedding.map (fun c => (m, sim t c)))).filter
      (fun p => decide (thr ≤ p.2))).mergeSort (fun a b => decide (b.2 ≤ a.2)),
      ∀ c, p.1.embedding = some c → p.2 = sim t c := by
    intro p hp c hc
    rw [List.mem_mergeSort] at hp
    obtain ⟨hpscored, _⟩ := List.mem_filter.mp hp
    rcases List.mem_filterMap.mp hpscored with ⟨m, _, hmap⟩
    rcases Option.map_eq_some'.mp hmap with ⟨c', hc', hpc⟩
    rw [← hpc] at hc ⊢
    simp only at hc ⊢
    rw [hc'] at hc
    rw [Option.some_inj.mp hc]
  refine List.Pairwise.imp_of_mem ?_ hsorted
  intro p p' hp hp' hle ca cb hca hcb
  have h1 := hfact p hp ca hca
  have h2 := hfact p' hp' cb hcb
  rw [← h1, ← h2]
  simpa using hle

/-- Counterexample to Claim C7 as stated: with a negative limit (a legal
`int` that no code path rejects), Python slicing `results[:limit]` drops
from the end instead of truncating, so a two-record store yields one
result, and `1 ≤ -1` fails — the returned list can exceed a negative
`query.limit`. -/
theorem retrieve_negative_limit_counterexample :
    (MemoryManager.retrieve (fun _ => none) (fun _ _ => 0)
        ⟨[⟨0, MemoryType.working, Content.cstr "x", 0, [], [], none, none⟩,
          ⟨1, MemoryType.working, Content.cstr "y", 0, [], [], none, none⟩], 2⟩
        ⟨none, none, none, -1, 7/10⟩).length = 1
    ∧ ¬ ((1 : Int) ≤ -1) := by
  constructor
  · rfl
  · decide

/-- Claim C7 (amended to nonnegative limits, which every caller in the
repository uses): the kind filter and the tag-intersection filter are
applied to every result; when the query has no (truthy) text the result is
entirely independent of the similarity function, so no ranking runs; when
the query has text, every result carries an embedding whose similarity to
the query meets the threshold and the results are sorted by descending
similarity; and the result count never exceeds `query.limit`. -/
theorem retrieve_filter_rank_limit (loads : String → Option PyVal)
    (sim sim' : String → Content → ℚ) (st : MemoryState) (q : MemoryQuery)
    (hlim : 0 ≤ q.limit) :
    ((MemoryManager.retrieve loads sim st q).length : Int) ≤ q.limit
    ∧ (∀ m ∈ MemoryManager.retrieve loads sim st q,
        (∀ tp, q.memoryType = some tp → m.type = tp)
        ∧ (∀ ts, q.tags = some ts → ts ≠ [] → ∃ tg ∈ ts, tg ∈ m.tags))
    ∧ ((q.text = none ∨ q.text = some "") →
        MemoryManager.retrieve loads sim st q = MemoryManager.retrieve loads sim' st q)
    ∧ (∀ t, q.text = some t → t ≠ "" →
        (∀ m ∈ MemoryManager.retrieve loads sim st q,
          ∃ c, m.embedding = some c ∧ q.threshold ≤ sim t c)
        ∧ (MemoryManager.retrieve loads sim st q).Pairwise
            (fun a b => ∀ ca cb, a.embedding = some ca → b.embedding = some cb →
              sim t cb ≤ sim t ca)) := by
  refine ⟨?_, ?_, ?_, ?_⟩
  · simp only [MemoryManager.retrieve]
    rw [List.length_map]
    exact pySlice_length_le _ _ hlim
  · intro m hm
    simp only [MemoryManager.retrieve] at hm
    rcases List.mem_map.mp hm with ⟨m', hm', rfl⟩
    have hm3 := pySlice_subset _ _ _ hm'
    have hm2 : m' ∈ MemoryManager.filterQuery st q := by
      rcases ht : q.text with _ | t <;> simp only [ht] at hm3
      · exact hm3
      · by_cases h0 : t = ""
        · rw [if_pos h0] at hm3; exact hm3
        · rw [if_neg h0] at hm3
          exact (rankQuery_mem sim t _ _ m' hm3).1
    have hfq := mem_filterQuery st q m' hm2
    obtain ⟨hd1, hd2, _⟩ := deserialize_preserves loads m'
    constructor
    · intro tp htp; rw [hd1]; exact hfq.1 tp htp
    · intro ts hts hne; rw [hd2]; exact hfq.2 ts hts hne
  · intro htext
    rcases htext with h | h <;> simp [MemoryManager.retrieve, h]
  · intro t ht hne
    constructor
    · intro m hm
      simp only [MemoryManager.retrieve, ht] at hm
      rw [if_neg hne] at hm
      rcases List.mem_map.mp hm with ⟨m', hm', rfl⟩
      have hm3 := pySlice_subset _ _ _ hm'
      obtain ⟨_, c, hc, hthr⟩ := rankQuery_mem sim t _ _ m' hm3
      obtain ⟨_, _, hd3⟩ := deserialize_preserves loads m'
      exact ⟨c, by rw [hd3]; exact hc, hthr⟩
    · simp only [MemoryManager.retrieve, ht]
      rw [if_neg hne]
      have hsorted := rankQuery_sorted sim t q.threshold (MemoryManager.filterQuery st q)
      have htake := pySlice_pairwise _ q.limit hsorted
      rw [List.pairwise_map]
      refine htake.imp ?_
      intro a b h ca cb hca hcb
      refine h ca cb ?_ ?_
      · rw [← (deserialize_preserves loads a).2.2]; exact hca
      · rw [← (deserialize_preserves loads b).2.2]; exact hcb

/-- Witness for C7 (amended) at a concrete instance: the default query
(limit 10) against the empty store. -/
theorem retrieve_filter_rank_limit_witness :
    ((0 : Int) ≤ (10 : Int))
    ∧ ((MemoryManager.retrieve (fun _ => none) (fun _ _ => 0) ⟨[], 0⟩
        ⟨none, none, none, 10, 7/10⟩).length : Int) ≤ 10 :=
  ⟨by decide,
   (retrieve_filter_rank_limit (fun _ => none) (fun _ _ => 0) (fun _ _ => 0) ⟨[], 0⟩
      ⟨none, none, none, 10, 7/10⟩ (by decide)).1⟩

end TMAO
